import Mathlib

/-!
Verification of the scene-graph core of the `pv` molecular viewer
(`src/scene.js`): the bounding-interval accumulator (`Range`), the
16-bit picking-id pool (`UniqueObjectIdPool` / `ContinuousIdRange`),
the mesh vertex-array partitioner (`MeshGeom.vertArrayWithSpaceFor`),
and the symmetry-expansion loops of `BaseGeom`
(`draw`, `updateProjectionIntervals`, `updateSquaredSphereRadius`,
`eachCentralAtom`).

JavaScript numbers are modelled as `Int` (all operations involved are
exact on integers); the JS object dictionary `_objects` is modelled as
an association list with overwrite-on-insert, matching last-write-wins
dictionary semantics; `console.log` / `console.error` output is
modelled as an explicit list of messages.
-/

namespace PV

/-! ### Range: the possibly-empty scalar interval accumulator
(scene.js lines 25-70). -/

/-- Translation of `function Range(min, max)` / its prototype.
The JS fields `_min`, `_max` are `null` while `_empty` is true; we keep
them as `Int` (their value is never read while `_empty` holds). -/
@[ext]
structure Range where
  _empty : Bool
  _min : Int
  _max : Int
  deriving DecidableEq, Repr

/-- Construction `new Range()` with both arguments undefined:
`_empty = true`, `_min = _max = null` (value never read). -/
def Range.mkEmpty : Range := ⟨true, 0, 0⟩

/-- Translation of `Range.prototype.update(val)`. -/
def Range.update (r : Range) (val : Int) : Range :=
  if r._empty = false then
    if val < r._min then { r with _min := val }
    else if val > r._max then { r with _max := val }
    else r
  else ⟨false, val, val⟩

/-- Feeding a whole list of values through `Range.update`, in order. -/
def applyUpdates (r : Range) (vs : List Int) : Range :=
  vs.foldl Range.update r

/-! ### The id pool (scene.js lines 792-859). -/

/-- Translation of `function ContinuousIdRange(pool, start, end)`:
`_start`, `_next`, `_end`.  (`end` is a Lean keyword, so the field is
named `stop`.)  The back pointer `_pool` is represented by passing the
pool state explicitly to the operations that touch it. -/
structure ContinuousIdRange where
  start : Nat
  next : Nat
  stop : Nat
  deriving DecidableEq, Repr

/-- Translation of `ContinuousIdRange.prototype.length`:
`this._end - this._start` (truncated subtraction; for ranges built by
the pool `start ≤ stop` always holds). -/
def ContinuousIdRange.length (r : ContinuousIdRange) : Nat :=
  r.stop - r.start

/-- The JS dictionary `pool._objects`, id → object, as an association
list: insertion overwrites, `delete` removes, lookup returns the
current binding (last-write-wins, like a JS object). -/
def setObj {α : Type} (m : List (Nat × α)) (id : Nat) (obj : α) :
    List (Nat × α) :=
  (id, obj) :: m.filter (fun p => p.1 ≠ id)

/-- Dictionary deletion: `delete this._objects[i]`. -/
def delObj {α : Type} (m : List (Nat × α)) (id : Nat) : List (Nat × α) :=
  m.filter (fun p => p.1 ≠ id)

/-- Dictionary lookup: `this._objects[id]`; `none` plays the role of
JS `undefined`. -/
def lookupObj {α : Type} (m : List (Nat × α)) (id : Nat) : Option α :=
  (m.find? (fun p => p.1 = id)).map Prod.snd

/-- Translation of `function UniqueObjectIdPool()`. -/
structure UniqueObjectIdPool (α : Type) where
  objects : List (Nat × α)
  unusedRangeStart : Nat
  free : List ContinuousIdRange
  deriving DecidableEq

/-- A freshly constructed pool: `_objects = {}`,
`_unusedRangeStart = 0`, `_free = []`. -/
def freshPool (α : Type) : UniqueObjectIdPool α := ⟨[], 0, []⟩

/-- Translation of `ContinuousIdRange.prototype.nextId(obj)`:
returns the id handed out, the mutated range and the mutated pool. -/
def nextId {α : Type} (p : UniqueObjectIdPool α) (r : ContinuousIdRange)
    (obj : α) : Nat × ContinuousIdRange × UniqueObjectIdPool α :=
  (r.next, { r with next := r.next + 1 },
   { p with objects := setObj p.objects r.next obj })

/-- Repeated `nextId` calls, one per listed object; returns the ids in
call order together with the final range and pool. -/
def nextIds {α : Type} (p : UniqueObjectIdPool α) (r : ContinuousIdRange) :
    List α → List Nat × ContinuousIdRange × UniqueObjectIdPool α
  | [] => ([], r, p)
  | obj :: objs =>
      let step := nextId p r obj
      let rest := nextIds step.2.2 step.2.1 objs
      (step.1 :: rest.1, rest.2.1, rest.2.2)

/-- The loop condition of the best-fit scan (scene.js line 830):
`length >= num && (bestLength === null || length < bestLength)`. -/
def betterFit (num l : Nat) (best : Option (Nat × Nat × ContinuousIdRange)) :
    Bool :=
  decide (num ≤ l) &&
    (match best with
     | none => true
     | some (_, bl, _) => decide (l < bl))

/-- The best-fit scan of `getContinuousRange` (scene.js lines 825-834):
a linear walk over `_free` keeping `bestIndex` and `bestLength`.  The
JS loop stores only the index and re-reads `this._free[bestIndex]`
afterwards; we carry the range found at that index alongside, which is
the same value. -/
def bestFitAux (num : Nat) :
    List ContinuousIdRange → Nat → Option (Nat × Nat × ContinuousIdRange) →
    Option (Nat × Nat × ContinuousIdRange)
  | [], _, best => best
  | r :: rest, i, best =>
      bestFitAux num rest (i + 1)
        (if betterFit num r.length best then some (i, r.length, r) else best)

/-- The whole free-list scan, started at index 0 with no best match. -/
def bestFit (num : Nat) (free : List ContinuousIdRange) :
    Option (Nat × Nat × ContinuousIdRange) :=
  bestFitAux num free 0 none

/-- Result of `getContinuousRange`: the allocated range (or `null`),
the new pool state, and any `console.log` output. -/
structure AcquireResult (α : Type) where
  result : Option ContinuousIdRange
  pool : UniqueObjectIdPool α
  log : List String
  deriving DecidableEq

/-- Translation of `UniqueObjectIdPool.prototype.getContinuousRange(num)`
(scene.js lines 822-848): best-fit over the free list (`splice` removes
the chosen entry), else carve `[start, start+num)` from the unused tail
unless that would pass 65536, in which case log and return `null`. -/
def UniqueObjectIdPool.getContinuousRange {α : Type}
    (p : UniqueObjectIdPool α) (num : Nat) : AcquireResult α :=
  match bestFit num p.free with
  | some (i, _, r) =>
      ⟨some r, { p with free := p.free.eraseIdx i }, []⟩
  | none =>
      let start := p.unusedRangeStart
      let stop := start + num
      if stop > 65536 then
        ⟨none, p, ["not enough free object ids."]⟩
      else
        ⟨some ⟨start, start, stop⟩,
         { p with unusedRangeStart := stop }, []⟩

/-- Deletion of the ids `first, first+1, …, first+count-1` from the
object dictionary (the loop body of `recycle`). -/
def delObjs {α : Type} (m : List (Nat × α)) (first : Nat) :
    Nat → List (Nat × α)
  | 0 => m
  | count + 1 => delObjs (delObj m first) (first + 1) count

/-- Translation of `UniqueObjectIdPool.prototype.recycle(range)`
(scene.js lines 849-855): delete the dictionary entry of every id in
`[range._start, range._next)`, reset the range's cursor to its start,
and push the (reset) range object onto the free list. -/
def UniqueObjectIdPool.recycle {α : Type} (p : UniqueObjectIdPool α)
    (r : ContinuousIdRange) : UniqueObjectIdPool α :=
  { p with
    objects := delObjs p.objects r.start (r.next - r.start),
    free := p.free ++ [{ r with next := r.start }] }

/-- Translation of `UniqueObjectIdPool.prototype.objectForId(id)`. -/
def UniqueObjectIdPool.objectForId {α : Type} (p : UniqueObjectIdPool α)
    (id : Nat) : Option α :=
  lookupObj p.objects id

/-! ### Vectors, affine transforms, and the structure/assembly model.

Crystallographic generator matrices are affine 4×4 transforms (spec
glossary); `vec3.transformMat4` on an affine matrix is linear part plus
translation, which we model exactly over `Int`. -/

/-- A 3-vector with integer coordinates. -/
structure Vec3 where
  x : Int
  y : Int
  z : Int
  deriving DecidableEq, Repr

/-- An affine 4×4 transform: 3×3 linear part plus translation.  The
fourth row is (0,0,0,1), so `vec3.transformMat4` divides by w = 1. -/
structure Mat4 where
  a11 : Int
  a12 : Int
  a13 : Int
  a21 : Int
  a22 : Int
  a23 : Int
  a31 : Int
  a32 : Int
  a33 : Int
  tx : Int
  ty : Int
  tz : Int
  deriving DecidableEq, Repr

/-- Translation of `vec3.transformMat4` for an affine matrix. -/
def transformMat4 (m : Mat4) (v : Vec3) : Vec3 :=
  ⟨m.a11 * v.x + m.a12 * v.y + m.a13 * v.z + m.tx,
   m.a21 * v.x + m.a22 * v.y + m.a23 * v.z + m.ty,
   m.a31 * v.x + m.a32 * v.y + m.a33 * v.z + m.tz⟩

/-- Dot product of two vectors (projection of a position onto an axis). -/
def dot (a b : Vec3) : Int :=
  a.x * b.x + a.y * b.y + a.z * b.z

/-- Squared distance between two points. -/
def sqDist (a b : Vec3) : Int :=
  (a.x - b.x) * (a.x - b.x) + (a.y - b.y) * (a.y - b.y) +
    (a.z - b.z) * (a.z - b.z)

/-- A residue of the consumed structure interface: its central atom
position, or `none` when the residue has no central atom. -/
structure Residue where
  centralAtom : Option Vec3
  deriving DecidableEq, Repr

/-- A chain of the consumed structure interface: a name and residues. -/
structure Chain where
  name : String
  residues : List Residue
  deriving DecidableEq, Repr

/-- A symmetry generator: chain names plus an ordered transform list
(`gen.chains()`, `gen.matrices()` / `gen.matrix(j)`). -/
structure SymGenerator where
  chains : List String
  matrices : List Mat4
  deriving DecidableEq, Repr

/-- A named assembly's payload: its generator list. -/
structure Assembly where
  generators : List SymGenerator
  deriving DecidableEq, Repr

/-- The consumed structure/assembly provider: chains plus a named
assembly table (`structure.assembly(name) -> assembly | none`). -/
structure Structure where
  chains : List Chain
  assemblies : List (String × Assembly)
  deriving DecidableEq, Repr

/-- Modelled from the spec: the consumed interface
`assembly(name) -> {generators…} | none` — lookup by name in the
structure's assembly table. -/
def Structure.assembly (s : Structure) (name : String) : Option Assembly :=
  (s.assemblies.find? (fun p => p.1 = name)).map Prod.snd

/-- Modelled from the spec: the consumed interface
`chainsByName(names) -> [chain]` — the structure's chains whose name is
among `names`. -/
def Structure.chainsByName (s : Structure) (names : List String) :
    List Chain :=
  s.chains.filter (fun c => names.contains c.name)

/-! ### The geometry container (`BaseGeom`, scene.js lines 164-396).

A vertex-array segment is reduced to what the verified operations
read: its chain tag and its vertex positions.  GL binding/upload calls
are side effects on the rendering context and are not part of the
observable behaviour modelled here; a draw is recorded as an explicit
event. -/

/-- One vertex-array segment: chain tag plus vertex positions. -/
structure VertArraySeg where
  chain : String
  verts : List Vec3
  deriving DecidableEq, Repr

/-- The state of a geometry container that the verified operations
consult: visibility, the `_showRelated` setting, the owning structure,
and the owned vertex-array segments (in order). -/
structure GeomState where
  visible : Bool
  showRelated : String
  struc : Structure
  vertArrays : List VertArraySeg
  deriving DecidableEq, Repr

/-- Translation of `BaseGeom._vertArraysInvolving(chains)`
(scene.js lines 244-257): the segments whose chain tag is in the given
name set, kept in segment order. -/
def vertArraysInvolving (g : GeomState) (chains : List String) :
    List VertArraySeg :=
  g.vertArrays.filter (fun va => chains.contains va.chain)

/-- One draw invocation issued by `_drawVertArrays`: either a
symmetry-related draw of a segment under one transform, or a plain
draw of a segment (no additional transform). -/
inductive DrawEvent where
  | sym (va : VertArraySeg) (transform : Mat4)
  | plain (va : VertArraySeg)
  deriving DecidableEq, Repr

/-- Translation of `_drawVertArrays(cam, shader, vertArrays,
additionalTransforms)` (same loop shape in `LineGeom` and `MeshGeom`,
scene.js lines 446-463 and 581-597): with transforms present, each
segment is handed to `drawSymmetryRelated` with the whole transform
list; the per-segment `drawSymmetryRelated` (vertex-array code outside
src/) is modelled from the spec: it redraws the segment once per
transform.  Without transforms each segment is drawn once, plainly. -/
def drawVertArrays (vertArrays : List VertArraySeg)
    (additionalTransforms : Option (List Mat4)) : List DrawEvent :=
  match additionalTransforms with
  | some ts =>
      (vertArrays.map (fun va => ts.map (fun t => DrawEvent.sym va t))).flatten
  | none => vertArrays.map DrawEvent.plain

/-- Translation of `BaseGeom._drawSymmetryRelated(cam, shader, assembly)`
(scene.js lines 261-268): for each generator, draw the segments of its
chains with that generator's transform list. -/
def drawSymmetryRelated (g : GeomState) (assembly : Assembly) :
    List DrawEvent :=
  (assembly.generators.map (fun gen =>
    drawVertArrays (vertArraysInvolving g gen.chains)
      (some gen.matrices))).flatten

/-- Translation of `BaseGeom.draw(cam, shaderCatalog, style, pass)`
(scene.js lines 351-375).  `shaderResolved` stands for
`shaderForStyleAndPass` returning a shader (a pluggable policy);
the returned list of strings is the `console.error` output. -/
def GeomState.draw (g : GeomState) (shaderResolved : Bool) :
    List DrawEvent × List String :=
  if g.visible = false then ([], [])
  else if shaderResolved = false then ([], [])
  else if g.showRelated = "asym" then
    (drawVertArrays g.vertArrays none, [])
  else
    match g.struc.assembly g.showRelated with
    | none =>
        (drawVertArrays g.vertArrays none,
         ["no assembly " ++ g.showRelated ++
          " found. Falling back to asymmetric unit"])
    | some assembly => (drawSymmetryRelated g assembly, [])

/-- Modelled from the spec: the per-segment
`updateSquaredSphereRadius(center, radius)` of the vertex-array code
(outside src/) — widen the squared-radius accumulator over every
vertex position of the segment.  Note the per-segment function takes
no transform argument. -/
def vaUpdateSquaredSphereRadius (va : VertArraySeg) (center : Vec3)
    (radius : Int) : Int :=
  va.verts.foldl (fun r p => max r (sqDist p center)) radius

/-- Modelled from the spec: what the claim asserts the symmetry pass
measures — the same per-segment squared-radius widening, but with the
generator transform applied to each candidate vertex position before
measuring. -/
def vaUpdateSquaredSphereRadiusT (transform : Mat4) (va : VertArraySeg)
    (center : Vec3) (radius : Int) : Int :=
  va.verts.foldl (fun r p => max r (sqDist (transformMat4 transform p) center))
    radius

/-- Translation of `BaseGeom._updateSquaredSphereRadiusAsym(center,
radius)` (scene.js lines 314-320). -/
def updateSquaredSphereRadiusAsym (g : GeomState) (center : Vec3)
    (radius : Int) : Int :=
  g.vertArrays.foldl (fun r va => vaUpdateSquaredSphereRadius va center r)
    radius

/-- Translation of `BaseGeom.updateSquaredSphereRadius(center, radius)`
(scene.js lines 322-349), with its `console.error` output.  In the
symmetry loop the source computes `var transform = gen.matrix(j)` but
does not pass it to the per-segment call, so each (generator,
transform, segment) iteration measures the untransformed vertices. -/
def GeomState.updateSquaredSphereRadius (g : GeomState) (center : Vec3)
    (radius : Int) : Int × List String :=
  if g.visible = false then (radius, [])
  else if g.showRelated = "asym" then
    (updateSquaredSphereRadiusAsym g center radius, [])
  else
    match g.struc.assembly g.showRelated with
    | none =>
        (updateSquaredSphereRadiusAsym g center radius,
         ["no assembly " ++ g.showRelated ++
          " found. Falling back to asymmetric unit"])
    | some assembly =>
        (assembly.generators.foldl (fun radius gen =>
          let affected := vertArraysInvolving g gen.chains
          gen.matrices.foldl (fun radius _transform =>
            affected.foldl (fun radius va =>
              vaUpdateSquaredSphereRadius va center radius) radius)
            radius) radius, [])

/-- The squared-sphere-radius computation the claim describes: the same
generator/transform/segment loop, but measuring each chain-matching
segment under the generator transform of the current iteration. -/
def claimSquaredSphereRadiusSym (g : GeomState) (assembly : Assembly)
    (center : Vec3) (radius : Int) : Int :=
  assembly.generators.foldl (fun radius gen =>
    let affected := vertArraysInvolving g gen.chains
    gen.matrices.foldl (fun radius transform =>
      affected.foldl (fun radius va =>
        vaUpdateSquaredSphereRadiusT transform va center radius) radius)
      radius) radius

/-- Modelled from the spec: the per-segment
`updateProjectionIntervals(xAxis, yAxis, zAxis, xI, yI, zI, transform?)`
of the vertex-array code (outside src/) — widen the three axis
interval accumulators over every vertex position, the optional
transform applied to the position first. -/
def vaUpdateProjectionIntervals (va : VertArraySeg)
    (xAxis yAxis zAxis : Vec3) (acc : Range × Range × Range)
    (transform : Option Mat4) : Range × Range × Range :=
  va.verts.foldl (fun acc p =>
    let q := match transform with
      | some m => transformMat4 m p
      | none => p
    (acc.1.update (dot q xAxis), acc.2.1.update (dot q yAxis),
     acc.2.2.update (dot q zAxis))) acc

/-- Translation of `BaseGeom._updateProjectionIntervalsAsym`
(scene.js lines 270-277): every segment, no transform. -/
def updateProjectionIntervalsAsym (g : GeomState)
    (xAxis yAxis zAxis : Vec3) (acc : Range × Range × Range) :
    Range × Range × Range :=
  g.vertArrays.foldl
    (fun acc va => vaUpdateProjectionIntervals va xAxis yAxis zAxis acc none)
    acc

/-- Translation of `BaseGeom.updateProjectionIntervals`
(scene.js lines 279-310), with its `console.error` output.  Unlike the
squared-radius loop, this one passes `gen.matrix(j)` down to the
per-segment call. -/
def GeomState.updateProjectionIntervals (g : GeomState)
    (xAxis yAxis zAxis : Vec3) (acc : Range × Range × Range) :
    (Range × Range × Range) × List String :=
  if g.visible = false then (acc, [])
  else if g.showRelated = "asym" then
    (updateProjectionIntervalsAsym g xAxis yAxis zAxis acc, [])
  else
    match g.struc.assembly g.showRelated with
    | none =>
        (updateProjectionIntervalsAsym g xAxis yAxis zAxis acc,
         ["no assembly " ++ g.showRelated ++
          " found. Falling back to asymmetric unit"])
    | some assembly =>
        (assembly.generators.foldl (fun acc gen =>
          let affected := vertArraysInvolving g gen.chains
          gen.matrices.foldl (fun acc transform =>
            affected.foldl (fun acc va =>
              vaUpdateProjectionIntervals va xAxis yAxis zAxis acc
                (some transform)) acc) acc) acc, [])

/-- Translation of `eachCentralAtomAsym(structure, callback)`
(scene.js lines 130-138): the callback invocations, as (atom position,
reported position) pairs; residues without a central atom are skipped.
`structure.eachResidue` (consumed interface) iterates the residues of
every chain in order. -/
def eachCentralAtomAsymList (s : Structure) : List (Vec3 × Vec3) :=
  ((s.chains.map Chain.residues).flatten).filterMap
    (fun r => r.centralAtom.map (fun a => (a, a)))

/-- Translation of `eachCentralAtomSym(structure, gens, callback)`
(scene.js lines 140-162): generator, then transform, then chain, then
residue; the transform is applied to the central atom position. -/
def eachCentralAtomSymList (s : Structure) (gens : List SymGenerator) :
    List (Vec3 × Vec3) :=
  (gens.map (fun gen =>
    let chains := s.chainsByName gen.chains
    (gen.matrices.map (fun m =>
      (chains.map (fun c =>
        c.residues.filterMap
          (fun r => r.centralAtom.map
            (fun a => (a, transformMat4 m a))))).flatten)).flatten)).flatten

/-- Translation of `BaseGeom.eachCentralAtom(callback)`
(scene.js lines 224-234): look the `_showRelated` name up in the
assembly table; with no assembly, iterate the asymmetric unit (with no
`console` output on this path). -/
def GeomState.eachCentralAtom (g : GeomState) :
    List (Vec3 × Vec3) × List String :=
  match g.struc.assembly g.showRelated with
  | none => (eachCentralAtomAsymList g.struc, [])
  | some assembly =>
      (eachCentralAtomSymList g.struc assembly.generators, [])

/-! ### The mesh vertex-array partitioner (`MeshGeom`,
scene.js lines 491-549). -/

/-- The capacity parameters of one indexed vertex array as passed to
its constructor: chain tag (`none` for a plain `IndexedVertexArray`,
`some` for `MeshChainData`), vertex capacity, current vertex count,
index capacity, current index count.  Counts are `Int` like all JS
numbers here. -/
structure IndexedVertexArray where
  chain : Option String
  maxVerts : Int
  numVerts : Int
  maxIndices : Int
  numIndices : Int
  deriving DecidableEq, Repr

/-- The partitioner state of `MeshGeom`: the segment sequence and the
running `_remainingVerts` / `_remainingIndices` budgets. -/
structure MeshGeom where
  indexedVertArrays : List IndexedVertexArray
  remainingVerts : Int
  remainingIndices : Int
  deriving DecidableEq, Repr

/-- Translation of `MeshGeom._boundedVertArraySize(size)`:
`Math.min(65536, size)`. -/
def boundedVertArraySize (size : Int) : Int :=
  min 65536 size

/-- Translation of `MeshGeom.addChainVertArray(chain, numVerts,
numIndices)` (scene.js lines 505-515): reset the budgets, create a
`MeshChainData` with vertex capacity `min(65536, numVerts)` and index
capacity `numIndices`, and append it. -/
def MeshGeom.addChainVertArray (g : MeshGeom) (chain : String)
    (numVerts numIndices : Int) : MeshGeom × IndexedVertexArray :=
  let newVa : IndexedVertexArray :=
    ⟨some chain, boundedVertArraySize numVerts, 0, numIndices, 0⟩
  ({ indexedVertArrays := g.indexedVertArrays ++ [newVa],
     remainingVerts := numVerts, remainingIndices := numIndices }, newVa)

/-- Translation of `MeshGeom.vertArrayWithSpaceFor(numVerts)`
(scene.js lines 528-549).  The source reads the last segment of
`_indexedVertArrays`; calling it on a container with no segment would
dereference `undefined` in JS, so that case is mapped to a no-op
returning a dummy segment (callers always create a segment first via
`addChainVertArray` / `addVertArray`). -/
def MeshGeom.vertArrayWithSpaceFor (g : MeshGeom) (numVerts : Int) :
    MeshGeom × IndexedVertexArray :=
  match g.indexedVertArrays.getLast? with
  | none => (g, ⟨none, 0, 0, 0, 0⟩)
  | some currentVa =>
      let remaining := currentVa.maxVerts - currentVa.numVerts
      if remaining ≥ numVerts then (g, currentVa)
      else
        let remainingVerts := g.remainingVerts - currentVa.numVerts
        let remainingIndices := g.remainingIndices - currentVa.numIndices
        let size := boundedVertArraySize remainingVerts
        let newVa : IndexedVertexArray :=
          ⟨currentVa.chain, size, 0, remainingIndices, 0⟩
        ({ indexedVertArrays := g.indexedVertArrays ++ [newVa],
           remainingVerts := remainingVerts,
           remainingIndices := remainingIndices }, newVa)

/-- Specification predicate for the best-fit scan: `best` describes the
first free range of minimal sufficient length among the scanned ranges
`seen` (`none` when no scanned range has capacity `num`). -/
def BestInv (num : Nat) (seen : List ContinuousIdRange)
    (best : Option (Nat × Nat × ContinuousIdRange)) : Prop :=
  (best = none → ∀ r ∈ seen, r.length < num) ∧
  (∀ bi bl br, best = some (bi, bl, br) →
    ∃ hbi : bi < seen.length,
      seen.get ⟨bi, hbi⟩ = br ∧ bl = br.length ∧ num ≤ bl ∧
      (∀ k, ∀ hk : k < seen.length,
        num ≤ (seen.get ⟨k, hk⟩).length → bl ≤ (seen.get ⟨k, hk⟩).length) ∧
      (∀ k, ∀ hk : k < seen.length, k < bi →
        num ≤ (seen.get ⟨k, hk⟩).length → bl < (seen.get ⟨k, hk⟩).length))

/-! ## Lemmas about the `Range` accumulator -/

theorem update_nonempty_fields (r : Range) (h : r._empty = false)
    (hle : r._min ≤ r._max) (v : Int) :
    (r.update v)._empty = false ∧ (r.update v)._min = min r._min v ∧
      (r.update v)._max = max r._max v := by
  unfold Range.update
  rw [if_pos h]
  by_cases h1 : v < r._min
  · rw [if_pos h1]
    exact ⟨h, (min_eq_right (le_of_lt h1)).symm,
           (max_eq_left (le_trans (le_of_lt h1) hle)).symm⟩
  · rw [if_neg h1]
    by_cases h2 : v > r._max
    · rw [if_pos h2]
      exact ⟨h, (min_eq_left (not_lt.mp h1)).symm,
             (max_eq_right (le_of_lt h2)).symm⟩
    · rw [if_neg h2]
      exact ⟨h, (min_eq_left (not_lt.mp h1)).symm,
             (max_eq_left (not_lt.mp h2)).symm⟩

theorem applyUpdates_nonempty (vs : List Int) (r : Range)
    (h : r._empty = false) (hle : r._min ≤ r._max) :
    (applyUpdates r vs)._empty = false ∧
    (applyUpdates r vs)._min = vs.foldl min r._min ∧
    (applyUpdates r vs)._max = vs.foldl max r._max := by
  induction vs generalizing r with
  | nil => exact ⟨h, rfl, rfl⟩
  | cons v vs ih =>
      obtain ⟨h1, h2, h3⟩ := update_nonempty_fields r h hle v
      have hle' : (r.update v)._min ≤ (r.update v)._max := by
        rw [h2, h3]
        exact le_trans (min_le_left _ _) (le_trans hle (le_max_left _ _))
      obtain ⟨g1, g2, g3⟩ := ih (r.update v) h1 hle'
      refine ⟨g1, ?_, ?_⟩
      · show (applyUpdates (r.update v) vs)._min = vs.foldl min (min r._min v)
        rw [g2, h2]
      · show (applyUpdates (r.update v) vs)._max = vs.foldl max (max r._max v)
        rw [g3, h3]

theorem foldl_min_le (vs : List Int) (a : Int) :
    vs.foldl min a ≤ a ∧ ∀ x ∈ vs, vs.foldl min a ≤ x := by
  induction vs generalizing a with
  | nil => exact ⟨le_refl a, by simp⟩
  | cons v vs ih =>
      obtain ⟨h1, h2⟩ := ih (min a v)
      refine ⟨le_trans h1 (min_le_left _ _), ?_⟩
      intro x hx
      rcases List.mem_cons.mp hx with rfl | hx
      · exact le_trans h1 (min_le_right _ _)
      · exact h2 x hx

theorem le_foldl_max (vs : List Int) (a : Int) :
    a ≤ vs.foldl max a ∧ ∀ x ∈ vs, x ≤ vs.foldl max a := by
  induction vs generalizing a with
  | nil => exact ⟨le_refl a, by simp⟩
  | cons v vs ih =>
      obtain ⟨h1, h2⟩ := ih (max a v)
      refine ⟨le_trans (le_max_left _ _) h1, ?_⟩
      intro x hx
      rcases List.mem_cons.mp hx with rfl | hx
      · exact le_trans (le_max_right _ _) h1
      · exact h2 x hx

theorem foldl_min_mem (vs : List Int) (a : Int) :
    vs.foldl min a ∈ a :: vs := by
  induction vs generalizing a with
  | nil => simp
  | cons v vs ih =>
      have h := ih (min a v)
      rcases List.mem_cons.mp h with h | h
      · show List.foldl min (min a v) vs ∈ a :: v :: vs
        rw [h]
        rcases le_total a v with hav | hav
        · rw [min_eq_left hav]; exact List.mem_cons_self _ _
        · rw [min_eq_right hav]
          exact List.mem_cons_of_mem _ (List.mem_cons_self _ _)
      · exact List.mem_cons_of_mem _ (List.mem_cons_of_mem _ h)

theorem foldl_max_mem (vs : List Int) (a : Int) :
    vs.foldl max a ∈ a :: vs := by
  induction vs generalizing a with
  | nil => simp
  | cons v vs ih =>
      have h := ih (max a v)
      rcases List.mem_cons.mp h with h | h
      · show List.foldl max (max a v) vs ∈ a :: v :: vs
        rw [h]
        rcases le_total a v with hav | hav
        · rw [max_eq_right hav]
          exact List.mem_cons_of_mem _ (List.mem_cons_self _ _)
        · rw [max_eq_left hav]; exact List.mem_cons_self _ _
      · exact List.mem_cons_of_mem _ (List.mem_cons_of_mem _ h)

theorem applyUpdates_from_empty (v : Int) (vs : List Int) :
    (applyUpdates Range.mkEmpty (v :: vs))._empty = false ∧
    (applyUpdates Range.mkEmpty (v :: vs))._min = vs.foldl min v ∧
    (applyUpdates Range.mkEmpty (v :: vs))._max = vs.foldl max v := by
  have hstep : Range.mkEmpty.update v = ⟨false, v, v⟩ := rfl
  show (applyUpdates (Range.mkEmpty.update v) vs)._empty = false ∧ _ ∧ _
  rw [hstep]
  exact applyUpdates_nonempty vs ⟨false, v, v⟩ rfl (le_refl v)

theorem applyUpdates_min_spec (v : Int) (vs : List Int) :
    (applyUpdates Range.mkEmpty (v :: vs))._min ∈ v :: vs ∧
      ∀ x ∈ v :: vs, (applyUpdates Range.mkEmpty (v :: vs))._min ≤ x := by
  obtain ⟨-, h2, -⟩ := applyUpdates_from_empty v vs
  rw [h2]
  refine ⟨foldl_min_mem vs v, ?_⟩
  intro x hx
  rcases List.mem_cons.mp hx with rfl | hx
  · exact (foldl_min_le vs x).1
  · exact (foldl_min_le vs v).2 x hx

theorem applyUpdates_max_spec (v : Int) (vs : List Int) :
    (applyUpdates Range.mkEmpty (v :: vs))._max ∈ v :: vs ∧
      ∀ x ∈ v :: vs, x ≤ (applyUpdates Range.mkEmpty (v :: vs))._max := by
  obtain ⟨-, -, h3⟩ := applyUpdates_from_empty v vs
  rw [h3]
  refine ⟨foldl_max_mem vs v, ?_⟩
  intro x hx
  rcases List.mem_cons.mp hx with rfl | hx
  · exact (le_foldl_max vs x).1
  · exact (le_foldl_max vs v).2 x hx

/-- C9: a freshly constructed `Range` updated with a nonempty sequence of
values ends non-empty with `_min` the minimum and `_max` the maximum of
the values; each further update only widens the interval (`_min` never
increases, `_max` never decreases); the final interval is independent of
the order of the updates; and a `Range` with no updates stays empty. -/
theorem range_accumulator_spec (v : Int) (vs ws vs' : List Int)
    (hperm : (v :: vs).Perm vs') :
    (applyUpdates Range.mkEmpty (v :: vs))._empty = false ∧
    ((applyUpdates Range.mkEmpty (v :: vs))._min ∈ v :: vs ∧
      ∀ x ∈ v :: vs, (applyUpdates Range.mkEmpty (v :: vs))._min ≤ x) ∧
    ((applyUpdates Range.mkEmpty (v :: vs))._max ∈ v :: vs ∧
      ∀ x ∈ v :: vs, x ≤ (applyUpdates Range.mkEmpty (v :: vs))._max) ∧
    applyUpdates Range.mkEmpty vs' = applyUpdates Range.mkEmpty (v :: vs) ∧
    ((applyUpdates (applyUpdates Range.mkEmpty (v :: vs)) ws)._min ≤
        (applyUpdates Range.mkEmpty (v :: vs))._min ∧
      (applyUpdates Range.mkEmpty (v :: vs))._max ≤
        (applyUpdates (applyUpdates Range.mkEmpty (v :: vs)) ws)._max ∧
      (applyUpdates (applyUpdates Range.mkEmpty (v :: vs)) ws)._empty =
        false) ∧
    applyUpdates Range.mkEmpty [] = Range.mkEmpty ∧
    Range.mkEmpty._empty = true := by
  obtain ⟨he, hmin, hmax⟩ := applyUpdates_from_empty v vs
  obtain ⟨hminMem, hminLe⟩ := applyUpdates_min_spec v vs
  obtain ⟨hmaxMem, hmaxLe⟩ := applyUpdates_max_spec v vs
  have hmm : (applyUpdates Range.mkEmpty (v :: vs))._min ≤
      (applyUpdates Range.mkEmpty (v :: vs))._max := hminLe _ hmaxMem
  refine ⟨he, ⟨hminMem, hminLe⟩, ⟨hmaxMem, hmaxLe⟩, ?_, ?_, rfl, rfl⟩
  · -- order independence: both sides are the unique nonempty range whose
    -- bounds are the extrema of the same multiset of values
    cases vs' with
    | nil => exact absurd hperm.length_eq (by simp)
    | cons w ws' =>
        obtain ⟨he', hmin', hmax'⟩ := applyUpdates_from_empty w ws'
        obtain ⟨hminMem', hminLe'⟩ := applyUpdates_min_spec w ws'
        obtain ⟨hmaxMem', hmaxLe'⟩ := applyUpdates_max_spec w ws'
        ext
        · rw [he, he']
        · exact le_antisymm (hminLe' _ (hperm.mem_iff.mp hminMem))
            (hminLe _ (hperm.mem_iff.mpr hminMem'))
        · exact le_antisymm (hmaxLe _ (hperm.mem_iff.mpr hmaxMem'))
            (hmaxLe' _ (hperm.mem_iff.mp hmaxMem))
  · obtain ⟨g1, g2, g3⟩ :=
      applyUpdates_nonempty ws (applyUpdates Range.mkEmpty (v :: vs)) he hmm
    refine ⟨?_, ?_, g1⟩
    · rw [g2]; exact (foldl_min_le ws _).1
    · rw [g3]; exact (le_foldl_max ws _).1

/-- Witness for `range_accumulator_spec` at the value sequence
`[3, 1, 4]` and its permutation `[4, 3, 1]`, with `[0]` as the
follow-up updates. -/
theorem range_accumulator_spec_witness :
    ([3, 1, 4] : List Int).Perm [4, 3, 1] ∧
    ((applyUpdates Range.mkEmpty [3, 1, 4])._empty = false ∧
      ((applyUpdates Range.mkEmpty [3, 1, 4])._min ∈ [3, 1, 4] ∧
        ∀ x ∈ ([3, 1, 4] : List Int),
          (applyUpdates Range.mkEmpty [3, 1, 4])._min ≤ x) ∧
      ((applyUpdates Range.mkEmpty [3, 1, 4])._max ∈ [3, 1, 4] ∧
        ∀ x ∈ ([3, 1, 4] : List Int),
          x ≤ (applyUpdates Range.mkEmpty [3, 1, 4])._max) ∧
      applyUpdates Range.mkEmpty [4, 3, 1] =
        applyUpdates Range.mkEmpty [3, 1, 4] ∧
      ((applyUpdates (applyUpdates Range.mkEmpty [3, 1, 4]) [0])._min ≤
          (applyUpdates Range.mkEmpty [3, 1, 4])._min ∧
        (applyUpdates Range.mkEmpty [3, 1, 4])._max ≤
          (applyUpdates (applyUpdates Range.mkEmpty [3, 1, 4]) [0])._max ∧
        (applyUpdates (applyUpdates Range.mkEmpty [3, 1, 4]) [0])._empty =
          false) ∧
      applyUpdates Range.mkEmpty [] = Range.mkEmpty ∧
      Range.mkEmpty._empty = true) :=
  ⟨by decide, range_accumulator_spec 3 [1, 4] [0] [4, 3, 1] (by decide)⟩

/-! ## Lemmas about the id-pool object dictionary -/

theorem lookupObj_setObj_same {α : Type} (m : List (Nat × α)) (id : Nat)
    (obj : α) : lookupObj (setObj m id obj) id = some obj := by
  simp [lookupObj, setObj, List.find?]

theorem find?_filter_ne {α : Type} (m : List (Nat × α)) (id id' : Nat)
    (h : id' ≠ id) :
    (m.filter (fun p => p.1 ≠ id)).find? (fun p => decide (p.1 = id')) =
      m.find? (fun p => decide (p.1 = id')) := by
  induction m with
  | nil => rfl
  | cons q m ih =>
      by_cases hq : q.1 = id
      · have hq2 : ¬(q.1 = id') := fun hc => h (hc ▸ hq)
        have h1 : (q :: m).filter (fun p => p.1 ≠ id) =
            m.filter (fun p => p.1 ≠ id) := by
          simp [List.filter_cons, hq]
        have h2 : (q :: m).find? (fun p => decide (p.1 = id')) =
            m.find? (fun p => decide (p.1 = id')) :=
          List.find?_cons_of_neg _ (by simpa using hq2)
        rw [h1, h2, ih]
      · have h1 : (q :: m).filter (fun p => p.1 ≠ id) =
            q :: m.filter (fun p => p.1 ≠ id) := by
          simp [List.filter_cons, hq]
        rw [h1]
        by_cases hq' : q.1 = id'
        · rw [List.find?_cons_of_pos _ (by simpa using hq'),
              List.find?_cons_of_pos _ (by simpa using hq')]
        · rw [List.find?_cons_of_neg _ (by simpa using hq'),
              List.find?_cons_of_neg _ (by simpa using hq'), ih]

theorem lookupObj_setObj_ne {α : Type} (m : List (Nat × α)) (id id' : Nat)
    (obj : α) (h : id' ≠ id) :
    lookupObj (setObj m id obj) id' = lookupObj m id' := by
  unfold lookupObj setObj
  rw [List.find?_cons_of_neg _ (by simp; exact fun hc => h hc.symm)]
  rw [find?_filter_ne m id id' h]

theorem lookupObj_delObj_same {α : Type} (m : List (Nat × α)) (id : Nat) :
    lookupObj (delObj m id) id = none := by
  unfold lookupObj delObj
  rw [List.find?_eq_none.mpr]
  · rfl
  · intro p hp
    have := List.of_mem_filter hp
    simpa using this

theorem lookupObj_delObj_ne {α : Type} (m : List (Nat × α)) (id id' : Nat)
    (h : id' ≠ id) :
    lookupObj (delObj m id) id' = lookupObj m id' := by
  unfold lookupObj delObj
  rw [find?_filter_ne m id id' h]

theorem lookupObj_delObjs {α : Type} (m : List (Nat × α))
    (first count id : Nat) :
    lookupObj (delObjs m first count) id =
      if first ≤ id ∧ id < first + count then none else lookupObj m id := by
  induction count generalizing m first with
  | zero =>
      rw [if_neg (by omega)]
      rfl
  | succ k ih =>
      show lookupObj (delObjs (delObj m first) (first + 1) k) id = _
      rw [ih]
      by_cases h : first + 1 ≤ id ∧ id < first + 1 + k
      · rw [if_pos h, if_pos (by omega)]
      · rw [if_neg h]
        by_cases h2 : id = first
        · subst h2
          rw [lookupObj_delObj_same, if_pos (by omega)]
        · rw [lookupObj_delObj_ne _ _ _ h2, if_neg (by omega)]

/-! ## Lemmas about repeated `nextId` calls -/

theorem nextIds_ids {α : Type} (objs : List α) (p : UniqueObjectIdPool α)
    (r : ContinuousIdRange) :
    (nextIds p r objs).1 = List.range' r.next objs.length ∧
    (nextIds p r objs).2.1.next = r.next + objs.length ∧
    (nextIds p r objs).2.1.start = r.start ∧
    (nextIds p r objs).2.1.stop = r.stop := by
  induction objs generalizing p r with
  | nil => exact ⟨rfl, by simp [nextIds], rfl, rfl⟩
  | cons o os ih =>
      obtain ⟨h1, h2, h3, h4⟩ :=
        ih { p with objects := setObj p.objects r.next o }
          { r with next := r.next + 1 }
      simp only [nextIds, nextId, List.length_cons]
      refine ⟨?_, ?_, h3, h4⟩
      · rw [h1, List.range'_succ]
      · rw [h2]
        dsimp only
        omega

theorem nextIds_preserves {α : Type} (objs : List α)
    (p : UniqueObjectIdPool α) (r : ContinuousIdRange) (id : Nat)
    (h : id < r.next) :
    lookupObj (nextIds p r objs).2.2.objects id = lookupObj p.objects id := by
  induction objs generalizing p r with
  | nil => rfl
  | cons o os ih =>
      simp only [nextIds, nextId]
      rw [ih _ _ (by dsimp only; omega)]
      exact lookupObj_setObj_ne _ _ _ _ (by omega)

theorem nextIds_lookup {α : Type} (objs : List α)
    (p : UniqueObjectIdPool α) (r : ContinuousIdRange) :
    ∀ i, ∀ hi : i < objs.length,
      lookupObj (nextIds p r objs).2.2.objects (r.next + i) =
        some (objs.get ⟨i, hi⟩) := by
  induction objs generalizing p r with
  | nil => intro i hi; exact absurd hi (by simp)
  | cons o os ih =>
      intro i hi
      simp only [nextIds, nextId]
      cases i with
      | zero =>
          rw [show r.next + 0 = r.next by omega]
          rw [nextIds_preserves os _ _ r.next (by dsimp only; omega)]
          exact lookupObj_setObj_same _ _ _
      | succ j =>
          have hj : j < os.length := by simpa using hi
          have := ih { p with objects := setObj p.objects r.next o }
            { r with next := r.next + 1 } j hj
          rw [show r.next + (j + 1) = r.next + 1 + j by omega]
          exact this

/-! ## The best-fit free-list scan -/

theorem get_append_single_lt (seen : List ContinuousIdRange)
    (r : ContinuousIdRange) (k : Nat) (hk : k < seen.length)
    (hk2 : k < (seen ++ [r]).length) :
    (seen ++ [r]).get ⟨k, hk2⟩ = seen.get ⟨k, hk⟩ := by
  simp [List.getElem_append_left hk]

theorem get_append_single_last (seen : List ContinuousIdRange)
    (r : ContinuousIdRange) (hk2 : seen.length < (seen ++ [r]).length) :
    (seen ++ [r]).get ⟨seen.length, hk2⟩ = r := by
  simp

theorem BestInv_step (num : Nat) (seen : List ContinuousIdRange)
    (best : Option (Nat × Nat × ContinuousIdRange)) (r : ContinuousIdRange)
    (h : BestInv num seen best) :
    BestInv num (seen ++ [r])
      (if betterFit num r.length best then some (seen.length, r.length, r)
       else best) := by
  obtain ⟨hnone, hsome⟩ := h
  unfold BestInv
  rcases best with _ | ⟨bi, bl, br⟩
  · by_cases hfit : num ≤ r.length
    · rw [if_pos (by simp [betterFit, hfit])]
      refine ⟨?_, ?_⟩
      exact fun hc => nomatch hc
      intro bi' bl' br' heq
      cases heq
      refine ⟨by simp, by simp, rfl, hfit, ?_, ?_⟩
      · intro k hk hfitk
        by_cases hks : k < seen.length
        · exfalso
          rw [get_append_single_lt seen r k hks hk] at hfitk
          have := hnone rfl (seen.get ⟨k, hks⟩) (seen.get_mem _ _)
          omega
        · have hkeq : k = seen.length := by simp at hk; omega
          subst hkeq
          rw [get_append_single_last seen r hk]
      · intro k hk hkbi hfitk
        exfalso
        have hks : k < seen.length := hkbi
        rw [get_append_single_lt seen r k hks hk] at hfitk
        have := hnone rfl (seen.get ⟨k, hks⟩) (seen.get_mem _ _)
        omega
    · rw [if_neg (by simp [betterFit, hfit])]
      refine ⟨?_, fun bi' bl' br' heq => nomatch heq⟩
      intro _ x hx
      rcases List.mem_append.mp hx with hx | hx
      · exact hnone rfl x hx
      · rw [List.mem_singleton.mp hx]
        omega
  · obtain ⟨hbi, hbeq, hblen, hfit0, hmin, htie⟩ := hsome bi bl br rfl
    by_cases hfit : num ≤ r.length
    · by_cases hlt : r.length < bl
      · rw [if_pos (by simp [betterFit, hfit, hlt])]
        refine ⟨?_, ?_⟩
        exact fun hc => nomatch hc
        intro bi' bl' br' heq
        cases heq
        refine ⟨by simp, by simp, rfl, hfit, ?_, ?_⟩
        · intro k hk hfitk
          by_cases hks : k < seen.length
          · rw [get_append_single_lt seen r k hks hk] at hfitk ⊢
            exact le_trans (le_of_lt hlt) (hmin k hks hfitk)
          · have hkeq : k = seen.length := by simp at hk; omega
            subst hkeq
            rw [get_append_single_last seen r hk]
        · intro k hk hkbi hfitk
          have hks : k < seen.length := hkbi
          rw [get_append_single_lt seen r k hks hk] at hfitk ⊢
          exact lt_of_lt_of_le hlt (hmin k hks hfitk)
      · rw [if_neg (by simp [betterFit, hlt])]
        refine ⟨?_, ?_⟩
        exact fun hc => nomatch hc
        intro bi' bl' br' heq
        cases heq
        refine ⟨by simp; omega, ?_, hblen, hfit0, ?_, ?_⟩
        · exact (get_append_single_lt seen r bi hbi _).trans hbeq
        · intro k hk hfitk
          by_cases hks : k < seen.length
          · rw [get_append_single_lt seen r k hks hk] at hfitk ⊢
            exact hmin k hks hfitk
          · have hkeq : k = seen.length := by simp at hk; omega
            subst hkeq
            rw [get_append_single_last seen r hk] at hfitk ⊢
            exact not_lt.mp hlt
        · intro k hk hkbi hfitk
          have hks : k < seen.length := lt_trans hkbi hbi
          rw [get_append_single_lt seen r k hks hk] at hfitk ⊢
          exact htie k hks hkbi hfitk
    · rw [if_neg (by simp [betterFit, hfit])]
      refine ⟨?_, ?_⟩
      exact fun hc => nomatch hc
      intro bi' bl' br' heq
      cases heq
      refine ⟨by simp; omega, ?_, hblen, hfit0, ?_, ?_⟩
      · exact (get_append_single_lt seen r bi hbi _).trans hbeq
      · intro k hk hfitk
        by_cases hks : k < seen.length
        · rw [get_append_single_lt seen r k hks hk] at hfitk ⊢
          exact hmin k hks hfitk
        · have hkeq : k = seen.length := by simp at hk; omega
          subst hkeq
          rw [get_append_single_last seen r hk] at hfitk
          exact absurd hfitk hfit
      · intro k hk hkbi hfitk
        have hks : k < seen.length := lt_trans hkbi hbi
        rw [get_append_single_lt seen r k hks hk] at hfitk ⊢
        exact htie k hks hkbi hfitk

theorem bestFitAux_invariant (num : Nat) (rest : List ContinuousIdRange) :
    ∀ (seen : List ContinuousIdRange)
      (best : Option (Nat × Nat × ContinuousIdRange)),
      BestInv num seen best →
      BestInv num (seen ++ rest) (bestFitAux num rest seen.length best) := by
  induction rest with
  | nil =>
      intro seen best h
      simpa using h
  | cons r rest ih =>
      intro seen best h
      have hstep := BestInv_step num seen best r h
      have hrec := ih (seen ++ [r]) _ hstep
      rw [List.append_assoc] at hrec
      simp only [List.singleton_append] at hrec
      rw [List.length_append, List.length_singleton] at hrec
      exact hrec

theorem bestFit_spec (num : Nat) (free : List ContinuousIdRange) :
    BestInv num free (bestFit num free) := by
  have h0 : BestInv num [] none := by
    unfold BestInv
    exact ⟨fun _ r hr => absurd hr (List.not_mem_nil r),
           fun _ _ _ heq => nomatch heq⟩
  have h := bestFitAux_invariant num free [] none h0
  simpa using h

/-- C2: `getContinuousRange(n)` picks from the free list the range of
smallest length among those with length ≥ n, ties broken by the
earliest position in the list; with free ranges of lengths {5, 10, 3} a
request for 4 returns the length-5 range; a fresh range is carved from
the unused tail only when no free range fits (that case is the subject
of `acquire_exhaustion_spec`). -/
theorem acquire_best_fit_spec {α : Type} (p : UniqueObjectIdPool α)
    (num : Nat)
    (hfit : (p.free.any fun r => decide (num ≤ r.length)) = true) :
    (∃ j, ∃ hj : j < p.free.length,
      (p.getContinuousRange num).result = some (p.free.get ⟨j, hj⟩) ∧
      num ≤ (p.free.get ⟨j, hj⟩).length ∧
      (∀ k, ∀ hk : k < p.free.length, num ≤ (p.free.get ⟨k, hk⟩).length →
        (p.free.get ⟨j, hj⟩).length ≤ (p.free.get ⟨k, hk⟩).length) ∧
      (∀ k, ∀ hk : k < p.free.length, k < j →
        num ≤ (p.free.get ⟨k, hk⟩).length →
        (p.free.get ⟨j, hj⟩).length < (p.free.get ⟨k, hk⟩).length) ∧
      (p.getContinuousRange num).pool.free = p.free.eraseIdx j ∧
      (p.getContinuousRange num).pool.unusedRangeStart =
        p.unusedRangeStart ∧
      (p.getContinuousRange num).log = []) ∧
    (UniqueObjectIdPool.getContinuousRange
        ⟨([] : List (Nat × Unit)), 30,
         [⟨0, 0, 5⟩, ⟨10, 10, 20⟩, ⟨20, 20, 23⟩]⟩ 4).result =
      some ⟨0, 0, 5⟩ := by
  constructor
  · rcases hcase : bestFit num p.free with _ | ⟨i, l, r⟩
    · exfalso
      obtain ⟨x, hx, hxfit⟩ := List.any_eq_true.mp hfit
      have := (bestFit_spec num p.free).1 hcase x hx
      simp at hxfit
      omega
    · obtain ⟨hbi, hbeq, hblen, hfit0, hmin, htie⟩ :=
        (bestFit_spec num p.free).2 i l r hcase
      refine ⟨i, hbi, ?_, ?_, ?_, ?_, ?_, ?_, ?_⟩
      · simp only [UniqueObjectIdPool.getContinuousRange, hcase]
        rw [hbeq]
      · rw [hbeq]; omega
      · intro k hk hfitk
        rw [hbeq]
        have := hmin k hk hfitk
        omega
      · intro k hk hkj hfitk
        rw [hbeq]
        have := htie k hk hkj hfitk
        omega
      · simp only [UniqueObjectIdPool.getContinuousRange, hcase]
      · simp only [UniqueObjectIdPool.getContinuousRange, hcase]
      · simp only [UniqueObjectIdPool.getContinuousRange, hcase]
  · decide

/-- Witness for `acquire_best_fit_spec`: a pool whose free list holds a
single length-5 range, asked for 4 ids. -/
theorem acquire_best_fit_spec_witness :
    ((UniqueObjectIdPool.free
        ⟨([] : List (Nat × Nat)), 10, [⟨0, 0, 5⟩]⟩).any
      fun r => decide (4 ≤ r.length)) = true ∧
    ((∃ j, ∃ hj : j <
        (UniqueObjectIdPool.free
          ⟨([] : List (Nat × Nat)), 10, [⟨0, 0, 5⟩]⟩).length,
      ((⟨([] : List (Nat × Nat)), 10,
          [⟨0, 0, 5⟩]⟩ : UniqueObjectIdPool Nat).getContinuousRange
          4).result =
        some ((UniqueObjectIdPool.free
          ⟨([] : List (Nat × Nat)), 10, [⟨0, 0, 5⟩]⟩).get ⟨j, hj⟩) ∧
      4 ≤ ((UniqueObjectIdPool.free
          ⟨([] : List (Nat × Nat)), 10, [⟨0, 0, 5⟩]⟩).get ⟨j, hj⟩).length ∧
      (∀ k, ∀ hk : k <
          (UniqueObjectIdPool.free
            ⟨([] : List (Nat × Nat)), 10, [⟨0, 0, 5⟩]⟩).length,
        4 ≤ ((UniqueObjectIdPool.free
            ⟨([] : List (Nat × Nat)), 10, [⟨0, 0, 5⟩]⟩).get ⟨k, hk⟩).length →
        ((UniqueObjectIdPool.free
            ⟨([] : List (Nat × Nat)), 10, [⟨0, 0, 5⟩]⟩).get ⟨j, hj⟩).length ≤
          ((UniqueObjectIdPool.free
            ⟨([] : List (Nat × Nat)), 10,
             [⟨0, 0, 5⟩]⟩).get ⟨k, hk⟩).length) ∧
      (∀ k, ∀ hk : k <
          (UniqueObjectIdPool.free
            ⟨([] : List (Nat × Nat)), 10, [⟨0, 0, 5⟩]⟩).length,
        k < j →
        4 ≤ ((UniqueObjectIdPool.free
            ⟨([] : List (Nat × Nat)), 10, [⟨0, 0, 5⟩]⟩).get ⟨k, hk⟩).length →
        ((UniqueObjectIdPool.free
            ⟨([] : List (Nat × Nat)), 10, [⟨0, 0, 5⟩]⟩).get ⟨j, hj⟩).length <
          ((UniqueObjectIdPool.free
            ⟨([] : List (Nat × Nat)), 10,
             [⟨0, 0, 5⟩]⟩).get ⟨k, hk⟩).length) ∧
      ((⟨([] : List (Nat × Nat)), 10,
          [⟨0, 0, 5⟩]⟩ : UniqueObjectIdPool Nat).getContinuousRange
          4).pool.free =
        (UniqueObjectIdPool.free
          ⟨([] : List (Nat × Nat)), 10, [⟨0, 0, 5⟩]⟩).eraseIdx j ∧
      ((⟨([] : List (Nat × Nat)), 10,
          [⟨0, 0, 5⟩]⟩ : UniqueObjectIdPool Nat).getContinuousRange
          4).pool.unusedRangeStart = 10 ∧
      ((⟨([] : List (Nat × Nat)), 10,
          [⟨0, 0, 5⟩]⟩ : UniqueObjectIdPool Nat).getContinuousRange
          4).log = []) ∧
    (UniqueObjectIdPool.getContinuousRange
        ⟨([] : List (Nat × Unit)), 30,
         [⟨0, 0, 5⟩, ⟨10, 10, 20⟩, ⟨20, 20, 23⟩]⟩ 4).result =
      some ⟨0, 0, 5⟩) :=
  ⟨by decide, acquire_best_fit_spec ⟨[], 10, [⟨0, 0, 5⟩]⟩ 4 (by decide)⟩

/-- C8: when no free range fits and the unused tail cannot supply `num`
more ids below 65536, `getContinuousRange` logs, returns `null` and
leaves the pool untouched; when the tail can supply them it returns the
fresh range `[highWaterMark, highWaterMark + num)` and advances the
high-water mark by `num`. -/
theorem acquire_exhaustion_spec {α : Type} (p : UniqueObjectIdPool α)
    (num : Nat)
    (hfree : (p.free.all fun r => decide (r.length < num)) = true) :
    (65536 < p.unusedRangeStart + num →
      (p.getContinuousRange num).result = none ∧
      (p.getContinuousRange num).pool = p ∧
      (p.getContinuousRange num).log ≠ []) ∧
    (p.unusedRangeStart + num ≤ 65536 →
      (p.getContinuousRange num).result =
        some ⟨p.unusedRangeStart, p.unusedRangeStart,
              p.unusedRangeStart + num⟩ ∧
      (p.getContinuousRange num).pool.unusedRangeStart =
        p.unusedRangeStart + num ∧
      (p.getContinuousRange num).pool.free = p.free ∧
      (p.getContinuousRange num).pool.objects = p.objects ∧
      (p.getContinuousRange num).log = []) := by
  have hbf : bestFit num p.free = none := by
    rcases hcase : bestFit num p.free with _ | ⟨i, l, r⟩
    · rfl
    · exfalso
      obtain ⟨hbi, hbeq, hblen, hfit0, -, -⟩ :=
        (bestFit_spec num p.free).2 i l r hcase
      have hmem : r ∈ p.free := by
        rw [← hbeq]; exact p.free.get_mem _ _
      have := List.all_eq_true.mp hfree r hmem
      simp at this
      omega
  constructor
  · intro hover
    simp only [UniqueObjectIdPool.getContinuousRange, hbf]
    rw [if_pos (by omega)]
    exact ⟨rfl, rfl, by simp⟩
  · intro hok
    simp only [UniqueObjectIdPool.getContinuousRange, hbf]
    rw [if_neg (by omega)]
    exact ⟨rfl, rfl, rfl, rfl, rfl⟩

/-- Witness for `acquire_exhaustion_spec`: a pool with the high-water
mark at 65535 and one too-small free range, asked for 4 ids. -/
theorem acquire_exhaustion_spec_witness :
    ((UniqueObjectIdPool.free
        ⟨([] : List (Nat × Nat)), 65535, [⟨0, 0, 2⟩]⟩).all
      fun r => decide (r.length < 4)) = true ∧
    65536 < 65535 + 4 ∧
    (((⟨([] : List (Nat × Nat)), 65535,
        [⟨0, 0, 2⟩]⟩ : UniqueObjectIdPool Nat).getContinuousRange 4).result =
      none ∧
     ((⟨([] : List (Nat × Nat)), 65535,
        [⟨0, 0, 2⟩]⟩ : UniqueObjectIdPool Nat).getContinuousRange 4).pool =
      ⟨[], 65535, [⟨0, 0, 2⟩]⟩ ∧
     ((⟨([] : List (Nat × Nat)), 65535,
        [⟨0, 0, 2⟩]⟩ : UniqueObjectIdPool Nat).getContinuousRange 4).log ≠
      []) :=
  ⟨by decide, by decide,
   (acquire_exhaustion_spec ⟨[], 65535, [⟨0, 0, 2⟩]⟩ 4 (by decide)).1
     (by decide)⟩

/-- C3: when `num` does not exceed 65536 minus the ids already carved
from the unused tail (and the free-list invariant of reset cursors
holds), `getContinuousRange(num)` succeeds, and `num` subsequent
`nextId` calls on the returned range yield the pairwise-distinct ids
`start, start+1, …`, all inside `[start, stop)`, each mapped in the
pool to the object passed to the call that produced it. -/
theorem acquire_then_nextIds_spec {α : Type} (p : UniqueObjectIdPool α)
    (num : Nat) (objs : List α)
    (hlen : objs.length = num)
    (hhw : p.unusedRangeStart ≤ 65536)
    (hcap : num ≤ 65536 - p.unusedRangeStart)
    (hwf : (p.free.all fun r => decide (r.next = r.start)) = true) :
    ∃ r, (p.getContinuousRange num).result = some r ∧
      (nextIds (p.getContinuousRange num).pool r objs).1 =
        List.range' r.start num ∧
      (List.range' r.start num).Nodup ∧
      (∀ id ∈ List.range' r.start num, r.start ≤ id ∧ id < r.stop) ∧
      (∀ i, ∀ hi : i < objs.length,
        lookupObj
          (nextIds (p.getContinuousRange num).pool r objs).2.2.objects
          (r.start + i) = some (objs.get ⟨i, hi⟩)) := by
  have key : ∃ r, (p.getContinuousRange num).result = some r ∧
      r.next = r.start ∧ num ≤ r.stop - r.start := by
    rcases hcase : bestFit num p.free with _ | ⟨i, l, r⟩
    · refine ⟨⟨p.unusedRangeStart, p.unusedRangeStart,
        p.unusedRangeStart + num⟩, ?_, rfl, by dsimp only; omega⟩
      simp only [UniqueObjectIdPool.getContinuousRange, hcase]
      rw [if_neg (by omega)]
    · obtain ⟨hbi, hbeq, hblen, hfit0, -, -⟩ :=
        (bestFit_spec num p.free).2 i l r hcase
      have hmem : r ∈ p.free := by
        rw [← hbeq]; exact p.free.get_mem _ _
      have hwfr := List.all_eq_true.mp hwf r hmem
      simp at hwfr
      have hlr : r.length = r.stop - r.start := rfl
      refine ⟨r, ?_, hwfr, by omega⟩
      simp only [UniqueObjectIdPool.getContinuousRange, hcase]
  obtain ⟨r, hres, hnext, hcapr⟩ := key
  obtain ⟨hids, -, -, -⟩ :=
    nextIds_ids objs (p.getContinuousRange num).pool r
  rw [hnext, hlen] at hids
  refine ⟨r, hres, hids, List.nodup_range' r.start num, ?_, ?_⟩
  · intro id hid
    rw [List.mem_range'_1] at hid
    omega
  · intro i hi
    have h := nextIds_lookup objs (p.getContinuousRange num).pool r i hi
    rw [hnext] at h
    exact h

/-- Witness for `acquire_then_nextIds_spec`: a fresh pool, a request
for 3 ids, and the objects 7, 8, 9. -/
theorem acquire_then_nextIds_spec_witness :
    ([7, 8, 9] : List Nat).length = 3 ∧
    (freshPool Nat).unusedRangeStart ≤ 65536 ∧
    3 ≤ 65536 - (freshPool Nat).unusedRangeStart ∧
    ((freshPool Nat).free.all fun r => decide (r.next = r.start)) = true ∧
    (∃ r, ((freshPool Nat).getContinuousRange 3).result = some r ∧
      (nextIds ((freshPool Nat).getContinuousRange 3).pool r
        [7, 8, 9]).1 = List.range' r.start 3 ∧
      (List.range' r.start 3).Nodup ∧
      (∀ id ∈ List.range' r.start 3, r.start ≤ id ∧ id < r.stop) ∧
      (∀ i, ∀ hi : i < ([7, 8, 9] : List Nat).length,
        lookupObj
          (nextIds ((freshPool Nat).getContinuousRange 3).pool r
            [7, 8, 9]).2.2.objects
          (r.start + i) = some (([7, 8, 9] : List Nat).get ⟨i, hi⟩))) :=
  ⟨by decide, by decide, by decide, by decide,
   acquire_then_nextIds_spec (freshPool Nat) 3 [7, 8, 9]
     (by decide) (by decide) (by decide) (by decide)⟩

/-- C10: `nextId` never checks the range's declared end: on a range of
length `e - s`, calls past the `e - s`-th still succeed, the ids handed
out being `s, s+1, …` without bound, so the call at position `e - s`
returns the id `e`, which lies outside `[s, e)`; every call writes its
object into the pool's id-to-object table at the returned id,
overwriting whatever association was stored there. -/
theorem nextId_no_bounds_check {α : Type} (p : UniqueObjectIdPool α)
    (s e : Nat) (objs : List α) (hse : s ≤ e)
    (hover : e - s < objs.length) :
    (nextIds p ⟨s, s, e⟩ objs).1 = List.range' s objs.length ∧
    (nextIds p ⟨s, s, e⟩ objs).1[e - s]? = some e ∧
    (∀ i, e - s ≤ i → ¬(s + i < e)) ∧
    (∀ i, ∀ hi : i < objs.length,
      lookupObj (nextIds p ⟨s, s, e⟩ objs).2.2.objects (s + i) =
        some (objs.get ⟨i, hi⟩)) ∧
    (nextIds p ⟨s, s, e⟩ objs).2.1.next = s + objs.length := by
  obtain ⟨hids, hnext, -, -⟩ := nextIds_ids objs p ⟨s, s, e⟩
  refine ⟨hids, ?_, fun i hi => by omega, ?_, hnext⟩
  · rw [hids]
    have : (List.range' s objs.length)[e - s]? = some (s + (e - s)) := by
      simp [List.getElem?_range', hover]
    rw [this]
    congr 1
    omega
  · intro i hi
    exact nextIds_lookup objs p ⟨s, s, e⟩ i hi

/-- Witness for `nextId_no_bounds_check`: a pool already holding an
association for id 2 under another owner, and a `[0, 2)` range asked
for three ids — the third id handed out is 2, and object 30 overwrites
the previous association. -/
theorem nextId_no_bounds_check_witness :
    (0 : Nat) ≤ 2 ∧ 2 - 0 < ([10, 20, 30] : List Nat).length ∧
    ((nextIds (⟨[(2, 99)], 5, []⟩ : UniqueObjectIdPool Nat) ⟨0, 0, 2⟩
        [10, 20, 30]).1 = List.range' 0 ([10, 20, 30] : List Nat).length ∧
      (nextIds (⟨[(2, 99)], 5, []⟩ : UniqueObjectIdPool Nat) ⟨0, 0, 2⟩
        [10, 20, 30]).1[2 - 0]? = some 2 ∧
      (∀ i, 2 - 0 ≤ i → ¬(0 + i < 2)) ∧
      (∀ i, ∀ hi : i < ([10, 20, 30] : List Nat).length,
        lookupObj (nextIds (⟨[(2, 99)], 5, []⟩ : UniqueObjectIdPool Nat)
            ⟨0, 0, 2⟩ [10, 20, 30]).2.2.objects (0 + i) =
          some (([10, 20, 30] : List Nat).get ⟨i, hi⟩)) ∧
      (nextIds (⟨[(2, 99)], 5, []⟩ : UniqueObjectIdPool Nat) ⟨0, 0, 2⟩
        [10, 20, 30]).2.1.next = 0 + ([10, 20, 30] : List Nat).length) :=
  ⟨by decide, by decide,
   nextId_no_bounds_check ⟨[(2, 99)], 5, []⟩ 0 2 [10, 20, 30]
     (by decide) (by decide)⟩

/-- C4: after `recycle(r)` the lookup of every id previously assigned by
`r` (the ids in `[r.start, r.next)`) returns none; lookup on a pool that
never assigned an id returns none; and id 0 is an ordinary assignable
id: the first range carved from a fresh pool starts at 0 and, once
assigned through `nextId`, `objectForId 0` returns the assigned
object. -/
theorem recycle_release_spec {α : Type} (p : UniqueObjectIdPool α)
    (r : ContinuousIdRange) (n : Nat) (obj : α)
    (hn : 1 ≤ n) (hcap : n ≤ 65536) :
    (∀ id, r.start ≤ id → id < r.next →
      (p.recycle r).objectForId id = none) ∧
    (∀ id, (freshPool α).objectForId id = none) ∧
    ((freshPool α).getContinuousRange n).result = some ⟨0, 0, n⟩ ∧
    (nextId ((freshPool α).getContinuousRange n).pool ⟨0, 0, n⟩ obj).1 = 0 ∧
    (nextId ((freshPool α).getContinuousRange n).pool
        ⟨0, 0, n⟩ obj).2.2.objectForId 0 = some obj := by
  refine ⟨?_, fun id => rfl, ?_, rfl, ?_⟩
  · intro id h1 h2
    show lookupObj (delObjs p.objects r.start (r.next - r.start)) id = none
    rw [lookupObj_delObjs]
    rw [if_pos (by omega)]
  · show (if 0 + n > 65536 then _
      else AcquireResult.mk (some ⟨0, 0, 0 + n⟩)
        { freshPool α with unusedRangeStart := 0 + n } []).result =
      some ⟨0, 0, n⟩
    rw [if_neg (by omega)]
    simp
  · exact lookupObj_setObj_same _ _ _

/-- Witness for `recycle_release_spec`: a pool holding ids 0-2 through a
range `[0, 5)` with cursor 3, released; and a fresh allocation of three
ids for object `42`. -/
theorem recycle_release_spec_witness :
    1 ≤ 3 ∧ 3 ≤ 65536 ∧
    ((∀ id, 0 ≤ id → id < 3 →
        (UniqueObjectIdPool.recycle ⟨[(0, 7), (1, 8), (2, 9)], 5, []⟩
          ⟨0, 3, 5⟩).objectForId id = none) ∧
      (∀ id, (freshPool Nat).objectForId id = none) ∧
      ((freshPool Nat).getContinuousRange 3).result = some ⟨0, 0, 3⟩ ∧
      (nextId ((freshPool Nat).getContinuousRange 3).pool ⟨0, 0, 3⟩ 42).1 =
        0 ∧
      (nextId ((freshPool Nat).getContinuousRange 3).pool
          ⟨0, 0, 3⟩ 42).2.2.objectForId 0 = some 42) :=
  ⟨by decide, by decide,
   recycle_release_spec ⟨[(0, 7), (1, 8), (2, 9)], 5, []⟩ ⟨0, 3, 5⟩ 3 42
     (by decide) (by decide)⟩

/-! ## The mesh vertex-array partitioner -/

/-- C6: `vertArrayWithSpaceFor(n)` returns the current (last) segment
unchanged when it has at least `n` free vertex slots; otherwise it
deducts the last segment's consumed vertex and index counts from the
running budgets, creates a segment for the same chain tag with vertex
capacity `min(65536, remainingVerts)` and index capacity exactly
`remainingIndices`, appends it, and returns it; a fresh chain's first
segment likewise gets vertex capacity `min(65536, declared total)` and
index capacity exactly the declared index total. -/
theorem vertArrayWithSpaceFor_spec (g : MeshGeom)
    (currentVa : IndexedVertexArray) (n : Int)
    (hlast : g.indexedVertArrays.getLast? = some currentVa) :
    (currentVa.maxVerts - currentVa.numVerts ≥ n →
      g.vertArrayWithSpaceFor n = (g, currentVa)) ∧
    (currentVa.maxVerts - currentVa.numVerts < n →
      (g.vertArrayWithSpaceFor n).2 =
        ⟨currentVa.chain,
         min 65536 (g.remainingVerts - currentVa.numVerts), 0,
         g.remainingIndices - currentVa.numIndices, 0⟩ ∧
      (g.vertArrayWithSpaceFor n).1.indexedVertArrays =
        g.indexedVertArrays ++ [(g.vertArrayWithSpaceFor n).2] ∧
      (g.vertArrayWithSpaceFor n).1.remainingVerts =
        g.remainingVerts - currentVa.numVerts ∧
      (g.vertArrayWithSpaceFor n).1.remainingIndices =
        g.remainingIndices - currentVa.numIndices) ∧
    (∀ (g0 : MeshGeom) (chain : String) (nv ni : Int),
      (g0.addChainVertArray chain nv ni).2 =
        ⟨some chain, min 65536 nv, 0, ni, 0⟩ ∧
      (g0.addChainVertArray chain nv ni).1.indexedVertArrays =
        g0.indexedVertArrays ++ [(g0.addChainVertArray chain nv ni).2] ∧
      (g0.addChainVertArray chain nv ni).1.remainingVerts = nv ∧
      (g0.addChainVertArray chain nv ni).1.remainingIndices = ni) := by
  refine ⟨?_, ?_, ?_⟩
  · intro h
    simp only [MeshGeom.vertArrayWithSpaceFor, hlast]
    rw [if_pos h]
  · intro h
    simp only [MeshGeom.vertArrayWithSpaceFor, hlast, boundedVertArraySize]
    rw [if_neg (not_le.mpr h)]
    refine ⟨?_, ?_, ?_, ?_⟩ <;> trivial
  · intro g0 chain nv ni
    simp only [MeshGeom.addChainVertArray, boundedVertArraySize]
    refine ⟨?_, ?_, ?_, ?_⟩ <;> trivial

/-- Witness for `vertArrayWithSpaceFor_spec`: a container whose single
segment, declared for 70000 of 100000 total vertices (clamped to
65536), is full. -/
theorem vertArrayWithSpaceFor_spec_witness :
    (MeshGeom.indexedVertArrays
        ⟨[⟨some "A", 65536, 65536, 90000, 90000⟩], 100000, 200000⟩).getLast? =
      some ⟨some "A", 65536, 65536, 90000, 90000⟩ ∧
    ((65536 : Int) - 65536 < 100 →
      ((⟨[⟨some "A", 65536, 65536, 90000, 90000⟩], 100000,
          200000⟩ : MeshGeom).vertArrayWithSpaceFor 100).2 =
        ⟨some "A", min 65536 ((100000 : Int) - 65536), 0,
         (200000 : Int) - 90000, 0⟩ ∧
      ((⟨[⟨some "A", 65536, 65536, 90000, 90000⟩], 100000,
          200000⟩ : MeshGeom).vertArrayWithSpaceFor 100).1.indexedVertArrays =
        [⟨some "A", 65536, 65536, 90000, 90000⟩] ++
          [((⟨[⟨some "A", 65536, 65536, 90000, 90000⟩], 100000,
              200000⟩ : MeshGeom).vertArrayWithSpaceFor 100).2] ∧
      ((⟨[⟨some "A", 65536, 65536, 90000, 90000⟩], 100000,
          200000⟩ : MeshGeom).vertArrayWithSpaceFor 100).1.remainingVerts =
        (100000 : Int) - 65536 ∧
      ((⟨[⟨some "A", 65536, 65536, 90000, 90000⟩], 100000,
          200000⟩ : MeshGeom).vertArrayWithSpaceFor 100).1.remainingIndices =
        (200000 : Int) - 90000) :=
  ⟨by decide,
   (vertArrayWithSpaceFor_spec
      ⟨[⟨some "A", 65536, 65536, 90000, 90000⟩], 100000, 200000⟩
      ⟨some "A", 65536, 65536, 90000, 90000⟩ 100 (by decide)).2.1⟩

/-! ## The symmetry draw loop -/

theorem drawVertArrays_sym_length (vas : List VertArraySeg)
    (ts : List Mat4) :
    (drawVertArrays vas (some ts)).length = vas.length * ts.length := by
  induction vas with
  | nil => simp [drawVertArrays]
  | cons va vas ih =>
      simp only [drawVertArrays] at ih ⊢
      rw [List.map_cons, List.flatten_cons, List.length_append,
          List.length_map, ih, List.length_cons, Nat.succ_mul,
          Nat.add_comm]

theorem drawVertArrays_sym_mem (vas : List VertArraySeg) (ts : List Mat4)
    (va : VertArraySeg) (t : Mat4) (hva : va ∈ vas) (ht : t ∈ ts) :
    DrawEvent.sym va t ∈ drawVertArrays vas (some ts) := by
  simp only [drawVertArrays]
  rw [List.mem_flatten]
  exact ⟨ts.map (fun t => DrawEvent.sym va t),
         List.mem_map_of_mem _ hva, List.mem_map_of_mem _ ht⟩

theorem drawVertArrays_sym_mem_inv (vas : List VertArraySeg)
    (ts : List Mat4) (va : VertArraySeg) (t : Mat4)
    (h : DrawEvent.sym va t ∈ drawVertArrays vas (some ts)) :
    va ∈ vas := by
  simp only [drawVertArrays, List.mem_flatten] at h
  obtain ⟨block, hblock, hmem⟩ := h
  obtain ⟨va', hva', rfl⟩ := List.mem_map.mp hblock
  obtain ⟨t', ht', heq⟩ := List.mem_map.mp hmem
  injection heq with h1 h2
  subst h1
  exact hva'

theorem drawGens_length (g : GeomState) (gens : List SymGenerator) :
    ((gens.map (fun gen =>
      drawVertArrays (vertArraysInvolving g gen.chains)
        (some gen.matrices))).flatten).length =
      (gens.map (fun gen =>
        (vertArraysInvolving g gen.chains).length *
          gen.matrices.length)).sum := by
  induction gens with
  | nil => rfl
  | cons gen gens ih =>
      rw [List.map_cons, List.flatten_cons, List.length_append,
          List.map_cons, List.sum_cons, ih, drawVertArrays_sym_length]

theorem drawSymmetryRelated_mem (g : GeomState) (asm : Assembly)
    (gen : SymGenerator) (hgen : gen ∈ asm.generators)
    (va : VertArraySeg) (hva : va ∈ vertArraysInvolving g gen.chains)
    (t : Mat4) (ht : t ∈ gen.matrices) :
    DrawEvent.sym va t ∈ drawSymmetryRelated g asm := by
  simp only [drawSymmetryRelated, List.mem_flatten]
  exact ⟨drawVertArrays (vertArraysInvolving g gen.chains)
          (some gen.matrices),
         List.mem_map_of_mem _ hgen,
         drawVertArrays_sym_mem _ _ _ _ hva ht⟩

theorem drawSymmetryRelated_mem_inv (g : GeomState) (asm : Assembly)
    (va : VertArraySeg) (t : Mat4)
    (h : DrawEvent.sym va t ∈ drawSymmetryRelated g asm) :
    ∃ gen ∈ asm.generators, va ∈ vertArraysInvolving g gen.chains := by
  simp only [drawSymmetryRelated, List.mem_flatten] at h
  obtain ⟨block, hblock, hmem⟩ := h
  obtain ⟨gen, hgen, rfl⟩ := List.mem_map.mp hblock
  exact ⟨gen, hgen, drawVertArrays_sym_mem_inv _ _ _ _ hmem⟩

/-- C5: for a visible container whose `showRelated` resolves to an
assembly (and whose shader resolves), `draw` issues, for each
generator, one symmetry-related draw of each chain-matching segment per
transform of that generator: the total number of (segment, transform)
draw invocations is the sum over generators of (matching segments ×
transforms), every (generator, matching segment, transform) triple is
drawn, and a segment whose chain is listed by no generator is never
drawn. -/
theorem draw_symmetry_count_spec (g : GeomState) (asm : Assembly)
    (hv : g.visible = true) (hrel : g.showRelated ≠ "asym")
    (hasm : g.struc.assembly g.showRelated = some asm) :
    (g.draw true).1.length =
      (asm.generators.map (fun gen =>
        (vertArraysInvolving g gen.chains).length *
          gen.matrices.length)).sum ∧
    (∀ gen ∈ asm.generators, ∀ va ∈ vertArraysInvolving g gen.chains,
      ∀ t ∈ gen.matrices, DrawEvent.sym va t ∈ (g.draw true).1) ∧
    (∀ va ∈ g.vertArrays,
      (∀ gen ∈ asm.generators, va.chain ∉ gen.chains) →
      ∀ t : Mat4, DrawEvent.sym va t ∉ (g.draw true).1) := by
  have hdraw : (g.draw true).1 = drawSymmetryRelated g asm := by
    simp [GeomState.draw, hv, hrel, hasm]
  rw [hdraw]
  refine ⟨drawGens_length g asm.generators, ?_, ?_⟩
  · intro gen hgen va hva t ht
    exact drawSymmetryRelated_mem g asm gen hgen va hva t ht
  · intro va _ hnone t hmem
    obtain ⟨gen, hgen, hva⟩ := drawSymmetryRelated_mem_inv g asm va t hmem
    have := (List.mem_filter.mp hva).2
    have hchain : va.chain ∈ gen.chains := by simpa using this
    exact hnone gen hgen hchain

/-- Witness for `draw_symmetry_count_spec`: the spec's own example — a
container with segments for chains A and B, one generator covering
chain A with 3 transforms, another covering chain B with 1 transform
(segment A drawn 3 times, segment B once, 4 invocations total). -/
theorem draw_symmetry_count_spec_witness :
    GeomState.visible
      ⟨true, "bio1",
       ⟨[], [("bio1",
         ⟨[⟨["A"], [⟨1,0,0,0,1,0,0,0,1,0,0,0⟩, ⟨1,0,0,0,1,0,0,0,1,1,0,0⟩,
                    ⟨1,0,0,0,1,0,0,0,1,2,0,0⟩]⟩,
           ⟨["B"], [⟨1,0,0,0,1,0,0,0,1,3,0,0⟩]⟩]⟩)]⟩,
       [⟨"A", [⟨0,0,0⟩]⟩, ⟨"B", [⟨5,0,0⟩]⟩]⟩ = true ∧
    GeomState.showRelated
      ⟨true, "bio1",
       ⟨[], [("bio1",
         ⟨[⟨["A"], [⟨1,0,0,0,1,0,0,0,1,0,0,0⟩, ⟨1,0,0,0,1,0,0,0,1,1,0,0⟩,
                    ⟨1,0,0,0,1,0,0,0,1,2,0,0⟩]⟩,
           ⟨["B"], [⟨1,0,0,0,1,0,0,0,1,3,0,0⟩]⟩]⟩)]⟩,
       [⟨"A", [⟨0,0,0⟩]⟩, ⟨"B", [⟨5,0,0⟩]⟩]⟩ ≠ "asym" ∧
    Structure.assembly
      ⟨[], [("bio1",
        ⟨[⟨["A"], [⟨1,0,0,0,1,0,0,0,1,0,0,0⟩, ⟨1,0,0,0,1,0,0,0,1,1,0,0⟩,
                   ⟨1,0,0,0,1,0,0,0,1,2,0,0⟩]⟩,
          ⟨["B"], [⟨1,0,0,0,1,0,0,0,1,3,0,0⟩]⟩]⟩)]⟩ "bio1" =
      some ⟨[⟨["A"], [⟨1,0,0,0,1,0,0,0,1,0,0,0⟩, ⟨1,0,0,0,1,0,0,0,1,1,0,0⟩,
                      ⟨1,0,0,0,1,0,0,0,1,2,0,0⟩]⟩,
             ⟨["B"], [⟨1,0,0,0,1,0,0,0,1,3,0,0⟩]⟩]⟩ ∧
    (GeomState.draw
      ⟨true, "bio1",
       ⟨[], [("bio1",
         ⟨[⟨["A"], [⟨1,0,0,0,1,0,0,0,1,0,0,0⟩, ⟨1,0,0,0,1,0,0,0,1,1,0,0⟩,
                    ⟨1,0,0,0,1,0,0,0,1,2,0,0⟩]⟩,
           ⟨["B"], [⟨1,0,0,0,1,0,0,0,1,3,0,0⟩]⟩]⟩)]⟩,
       [⟨"A", [⟨0,0,0⟩]⟩, ⟨"B", [⟨5,0,0⟩]⟩]⟩ true).1.length = 4 :=
  ⟨rfl, by decide,
   by decide,
   by
    have h := (draw_symmetry_count_spec
      ⟨true, "bio1",
       ⟨[], [("bio1",
         ⟨[⟨["A"], [⟨1,0,0,0,1,0,0,0,1,0,0,0⟩, ⟨1,0,0,0,1,0,0,0,1,1,0,0⟩,
                    ⟨1,0,0,0,1,0,0,0,1,2,0,0⟩]⟩,
           ⟨["B"], [⟨1,0,0,0,1,0,0,0,1,3,0,0⟩]⟩]⟩)]⟩,
       [⟨"A", [⟨0,0,0⟩]⟩, ⟨"B", [⟨5,0,0⟩]⟩]⟩
      ⟨[⟨["A"], [⟨1,0,0,0,1,0,0,0,1,0,0,0⟩, ⟨1,0,0,0,1,0,0,0,1,1,0,0⟩,
                 ⟨1,0,0,0,1,0,0,0,1,2,0,0⟩]⟩,
        ⟨["B"], [⟨1,0,0,0,1,0,0,0,1,3,0,0⟩]⟩]⟩
      rfl (by decide) (by decide)).1
    rw [h]
    decide⟩

/-! ## Fallback on a dangling show-related name, and the
squared-radius symmetry pass -/

/-- C7 counterexample: for a container whose `showRelated` names an
assembly the structure does not have, `eachCentralAtom` falls back to
the asymmetric unit without reporting anything — its console output is
empty — refuting the claim that each of the four operations reports the
condition (`draw`, by contrast, does log on the same container). -/
theorem eachCentralAtom_silent_fallback :
    GeomState.showRelated
        ⟨true, "bio1", ⟨[⟨"A", [⟨some ⟨1, 2, 3⟩⟩]⟩], []⟩,
         [⟨"A", [⟨1, 2, 3⟩]⟩]⟩ ≠ "asym" ∧
    Structure.assembly ⟨[⟨"A", [⟨some ⟨1, 2, 3⟩⟩]⟩], []⟩ "bio1" = none ∧
    GeomState.visible
        ⟨true, "bio1", ⟨[⟨"A", [⟨some ⟨1, 2, 3⟩⟩]⟩], []⟩,
         [⟨"A", [⟨1, 2, 3⟩]⟩]⟩ = true ∧
    (GeomState.eachCentralAtom
        ⟨true, "bio1", ⟨[⟨"A", [⟨some ⟨1, 2, 3⟩⟩]⟩], []⟩,
         [⟨"A", [⟨1, 2, 3⟩]⟩]⟩).2 = [] ∧
    (GeomState.draw
        ⟨true, "bio1", ⟨[⟨"A", [⟨some ⟨1, 2, 3⟩⟩]⟩], []⟩,
         [⟨"A", [⟨1, 2, 3⟩]⟩]⟩ true).2 ≠ [] := by
  decide

/-- C7 (amended): for a visible container whose `showRelated` names an
assembly the structure does not have, `draw` (with a resolved shader),
`updateProjectionIntervals` and `updateSquaredSphereRadius` report the
condition and behave exactly as the asymmetric-unit path — `draw` draws
every segment once with no additional transform and the bounding
operations accumulate over every segment untransformed — while
`eachCentralAtom` iterates the asymmetric unit's central atoms directly
but reports nothing. -/
theorem dangling_assembly_fallback (g : GeomState)
    (xA yA zA center : Vec3) (acc : Range × Range × Range) (radius : Int)
    (hrel : g.showRelated ≠ "asym")
    (hasm : g.struc.assembly g.showRelated = none)
    (hv : g.visible = true) :
    (g.draw true).1 = drawVertArrays g.vertArrays none ∧
    (g.draw true).2 ≠ [] ∧
    (g.updateProjectionIntervals xA yA zA acc).1 =
      updateProjectionIntervalsAsym g xA yA zA acc ∧
    (g.updateProjectionIntervals xA yA zA acc).2 ≠ [] ∧
    (g.updateSquaredSphereRadius center radius).1 =
      updateSquaredSphereRadiusAsym g center radius ∧
    (g.updateSquaredSphereRadius center radius).2 ≠ [] ∧
    g.eachCentralAtom.1 = eachCentralAtomAsymList g.struc ∧
    g.eachCentralAtom.2 = [] := by
  refine ⟨?_, ?_, ?_, ?_, ?_, ?_, ?_, ?_⟩ <;>
    simp [GeomState.draw, GeomState.updateProjectionIntervals,
      GeomState.updateSquaredSphereRadius, GeomState.eachCentralAtom,
      hv, hrel, hasm]

/-- Witness for `dangling_assembly_fallback`: a visible container whose
`showRelated` is "bio9" while the structure has no assemblies at all. -/
theorem dangling_assembly_fallback_witness :
    GeomState.showRelated
        ⟨true, "bio9", ⟨[⟨"A", [⟨some ⟨1, 2, 3⟩⟩]⟩], []⟩,
         [⟨"A", [⟨1, 2, 3⟩]⟩]⟩ ≠ "asym" ∧
    Structure.assembly ⟨[⟨"A", [⟨some ⟨1, 2, 3⟩⟩]⟩], []⟩ "bio9" = none ∧
    GeomState.visible
        ⟨true, "bio9", ⟨[⟨"A", [⟨some ⟨1, 2, 3⟩⟩]⟩], []⟩,
         [⟨"A", [⟨1, 2, 3⟩]⟩]⟩ = true ∧
    ((GeomState.draw
        ⟨true, "bio9", ⟨[⟨"A", [⟨some ⟨1, 2, 3⟩⟩]⟩], []⟩,
         [⟨"A", [⟨1, 2, 3⟩]⟩]⟩ true).1 =
      drawVertArrays [⟨"A", [⟨1, 2, 3⟩]⟩] none ∧
    (GeomState.draw
        ⟨true, "bio9", ⟨[⟨"A", [⟨some ⟨1, 2, 3⟩⟩]⟩], []⟩,
         [⟨"A", [⟨1, 2, 3⟩]⟩]⟩ true).2 ≠ [] ∧
    (GeomState.updateProjectionIntervals
        ⟨true, "bio9", ⟨[⟨"A", [⟨some ⟨1, 2, 3⟩⟩]⟩], []⟩,
         [⟨"A", [⟨1, 2, 3⟩]⟩]⟩ ⟨1, 0, 0⟩ ⟨0, 1, 0⟩ ⟨0, 0, 1⟩
        (Range.mkEmpty, Range.mkEmpty, Range.mkEmpty)).1 =
      updateProjectionIntervalsAsym
        ⟨true, "bio9", ⟨[⟨"A", [⟨some ⟨1, 2, 3⟩⟩]⟩], []⟩,
         [⟨"A", [⟨1, 2, 3⟩]⟩]⟩ ⟨1, 0, 0⟩ ⟨0, 1, 0⟩ ⟨0, 0, 1⟩
        (Range.mkEmpty, Range.mkEmpty, Range.mkEmpty) ∧
    (GeomState.updateProjectionIntervals
        ⟨true, "bio9", ⟨[⟨"A", [⟨some ⟨1, 2, 3⟩⟩]⟩], []⟩,
         [⟨"A", [⟨1, 2, 3⟩]⟩]⟩ ⟨1, 0, 0⟩ ⟨0, 1, 0⟩ ⟨0, 0, 1⟩
        (Range.mkEmpty, Range.mkEmpty, Range.mkEmpty)).2 ≠ [] ∧
    (GeomState.updateSquaredSphereRadius
        ⟨true, "bio9", ⟨[⟨"A", [⟨some ⟨1, 2, 3⟩⟩]⟩], []⟩,
         [⟨"A", [⟨1, 2, 3⟩]⟩]⟩ ⟨0, 0, 0⟩ 0).1 =
      updateSquaredSphereRadiusAsym
        ⟨true, "bio9", ⟨[⟨"A", [⟨some ⟨1, 2, 3⟩⟩]⟩], []⟩,
         [⟨"A", [⟨1, 2, 3⟩]⟩]⟩ ⟨0, 0, 0⟩ 0 ∧
    (GeomState.updateSquaredSphereRadius
        ⟨true, "bio9", ⟨[⟨"A", [⟨some ⟨1, 2, 3⟩⟩]⟩], []⟩,
         [⟨"A", [⟨1, 2, 3⟩]⟩]⟩ ⟨0, 0, 0⟩ 0).2 ≠ [] ∧
    (GeomState.eachCentralAtom
        ⟨true, "bio9", ⟨[⟨"A", [⟨some ⟨1, 2, 3⟩⟩]⟩], []⟩,
         [⟨"A", [⟨1, 2, 3⟩]⟩]⟩).1 =
      eachCentralAtomAsymList ⟨[⟨"A", [⟨some ⟨1, 2, 3⟩⟩]⟩], []⟩ ∧
    (GeomState.eachCentralAtom
        ⟨true, "bio9", ⟨[⟨"A", [⟨some ⟨1, 2, 3⟩⟩]⟩], []⟩,
         [⟨"A", [⟨1, 2, 3⟩]⟩]⟩).2 = []) :=
  ⟨by decide, by decide, rfl,
   dangling_assembly_fallback
     ⟨true, "bio9", ⟨[⟨"A", [⟨some ⟨1, 2, 3⟩⟩]⟩], []⟩,
      [⟨"A", [⟨1, 2, 3⟩]⟩]⟩ ⟨1, 0, 0⟩ ⟨0, 1, 0⟩ ⟨0, 0, 1⟩ ⟨0, 0, 0⟩
     (Range.mkEmpty, Range.mkEmpty, Range.mkEmpty) 0
     (by decide) (by decide) rfl⟩

/-- C1 (evaluation of the code at the failing input): with one
generator whose single transform translates by (100, 0, 0) applied to
chain A's only vertex (0, 0, 0), `updateSquaredSphereRadius` from
center (0, 0, 0) with initial radius 0 returns 0 — the symmetry loop
computes `gen.matrix(j)` into a local but measures the untransformed
vertex — while the transform-applying measurement the claim (and the
spec) describe returns 10000 for the symmetry copy at (100, 0, 0). -/
theorem updateSquaredSphereRadius_transform_bug :
    (GeomState.updateSquaredSphereRadius
        ⟨true, "sym",
         ⟨[⟨"A", [⟨some ⟨0, 0, 0⟩⟩]⟩],
          [("sym",
            ⟨[⟨["A"], [⟨1, 0, 0, 0, 1, 0, 0, 0, 1, 100, 0, 0⟩]⟩]⟩)]⟩,
         [⟨"A", [⟨0, 0, 0⟩]⟩]⟩ ⟨0, 0, 0⟩ 0).1 = 0 ∧
    claimSquaredSphereRadiusSym
        ⟨true, "sym",
         ⟨[⟨"A", [⟨some ⟨0, 0, 0⟩⟩]⟩],
          [("sym",
            ⟨[⟨["A"], [⟨1, 0, 0, 0, 1, 0, 0, 0, 1, 100, 0, 0⟩]⟩]⟩)]⟩,
         [⟨"A", [⟨0, 0, 0⟩]⟩]⟩
        ⟨[⟨["A"], [⟨1, 0, 0, 0, 1, 0, 0, 0, 1, 100, 0, 0⟩]⟩]⟩
        ⟨0, 0, 0⟩ 0 = 10000 := by
  decide

end PV
